import Mathlib

/-!
Verification of the event emitter library (package eventemitter).

The model below is a shallow embedding of emitter.go.  Handler functions are
opaque and identified by a natural number; a registered listener or capturer
record is identified by a natural number standing for its allocation address
(Go pointer identity).  Event argument lists are opaque transport and are
modelled by a single natural number token.  The Go map from event type to
listener slice is modelled as an association list with first-match lookup
that defaults to the empty list, matching the semantics of reading a missing
key from a Go map.
-/

namespace EventEmitter

/-- EventType from interface.go: an opaque string token naming an event. -/
abbrev EventType := String

/-- Listener from interface.go: handler plus once flag.  The id field stands
for the pointer identity of the allocated record. -/
structure Listener where
  id : Nat
  handler : Nat
  once : Bool
deriving DecidableEq, Repr

/-- Capturer from interface.go: handler plus once flag, with pointer id. -/
structure Capturer where
  id : Nat
  handler : Nat
  once : Bool
deriving DecidableEq, Repr

/-- The listeners field of Emitter: map[EventType][]*Listener, modelled as an
association list read with first-match lookup. -/
abbrev ListMap := List (EventType × List Listener)

/-- Reading the Go map: a missing key yields the nil slice. -/
def lookupL : ListMap → EventType → List Listener
  | [], _ => []
  | (k, v) :: rest, e => if k = e then v else lookupL rest e

/-- Writing the Go map: replace the binding if the key is present, otherwise
insert it. -/
def setL : ListMap → EventType → List Listener → ListMap
  | [], e, v => [(e, v)]
  | (k, w) :: rest, e, v => if k = e then (e, v) :: rest else (k, w) :: setL rest e v

/-- Emitter from emitter.go: async flag, capturer slice, listener map.  The
mutex field is state of the lock model treated separately below. -/
structure Emitter where
  async : Bool
  capturers : List Capturer
  listeners : ListMap
deriving DecidableEq, Repr

/-- NewEmitter from emitter.go. -/
def NewEmitter (async : Bool) : Emitter :=
  { async := async, capturers := [], listeners := [] }

/-- A single handler invocation as observed by the caller: either a listener
body called with the arguments, or a capturer body called with the event and
the arguments. -/
inductive TraceEntry where
  | lis (x : Listener) (a : Nat)
  | cap (x : Capturer) (event : EventType) (a : Nat)
deriving DecidableEq, Repr

/-- removeListenerAtIndex from emitter.go: shift the slice left from the
index with copy and truncate by one, then store it back in the map. -/
def removeListenerAtIndex (m : ListMap) (event : EventType) (i : Nat) : ListMap :=
  setL m event ((lookupL m event).take i ++ (lookupL m event).drop (i + 1))

/-- removeCapturerAtIndex from emitter.go: shift left from the index and
truncate by one. -/
def removeCapturerAtIndex (cs : List Capturer) (i : Nat) : List Capturer :=
  cs.take i ++ cs.drop (i + 1)

/-- The listener loop of EmitEvent: the loop bound is the length of the slice
when the loop starts, the body indexes the current slice at index - removed,
invokes the handler there, and if its once flag is set removes it and bumps
removed.  A none result models an out-of-bounds slice access (Go panic),
which the safety claim shows never happens. -/
def listenerLoop (event : EventType) (a : Nat) :
    Nat → Nat → Nat → ListMap → Option (ListMap × List TraceEntry)
  | 0, _, _, m => some (m, [])
  | rem + 1, index, removed, m =>
    match (lookupL m event)[index - removed]? with
    | none => none
    | some x =>
      match listenerLoop event a rem (index + 1)
          (if x.once then removed + 1 else removed)
          (if x.once then removeListenerAtIndex m event (index - removed) else m) with
      | none => none
      | some (mf, tr) => some (mf, TraceEntry.lis x a :: tr)

/-- The capturer loop of EmitEvent, same shape over the capturer slice. -/
def capturerLoop (event : EventType) (a : Nat) :
    Nat → Nat → Nat → List Capturer → Option (List Capturer × List TraceEntry)
  | 0, _, _, cs => some (cs, [])
  | rem + 1, index, removed, cs =>
    match cs[index - removed]? with
    | none => none
    | some x =>
      match capturerLoop event a rem (index + 1)
          (if x.once then removed + 1 else removed)
          (if x.once then removeCapturerAtIndex cs (index - removed) else cs) with
      | none => none
      | some (csf, tr) => some (csf, TraceEntry.cap x event a :: tr)

/-- EmitEvent from emitter.go: run the listener loop for the event, then the
capturer loop, and return the new emitter state together with the trace of
handler invocations in order.  The trace records for each invocation the
record invoked and the arguments it received. -/
def EmitEvent (em : Emitter) (event : EventType) (a : Nat) :
    Option (Emitter × List TraceEntry) :=
  match listenerLoop event a (lookupL em.listeners event).length 0 0 em.listeners with
  | none => none
  | some (m1, trL) =>
    match capturerLoop event a em.capturers.length 0 0 em.capturers with
    | none => none
    | some (cs1, trC) =>
      some ({ em with listeners := m1, capturers := cs1 }, trL ++ trC)

/-- AddListener from emitter.go: append a fresh non-once listener record and
return it as the removal handle. -/
def AddListener (em : Emitter) (event : EventType) (handler : Nat) (newId : Nat) :
    Listener × Emitter :=
  let x : Listener := { id := newId, handler := handler, once := false }
  (x, { em with listeners := setL em.listeners event (lookupL em.listeners event ++ [x]) })

/-- ListenOnce from emitter.go: same as AddListener with the once flag set. -/
def ListenOnce (em : Emitter) (event : EventType) (handler : Nat) (newId : Nat) :
    Listener × Emitter :=
  let x : Listener := { id := newId, handler := handler, once := true }
  (x, { em with listeners := setL em.listeners event (lookupL em.listeners event ++ [x]) })

/-- AddCapturer from emitter.go: append a fresh non-once capturer record. -/
def AddCapturer (em : Emitter) (handler : Nat) (newId : Nat) : Capturer × Emitter :=
  let x : Capturer := { id := newId, handler := handler, once := false }
  (x, { em with capturers := em.capturers ++ [x] })

/-- CaptureOnce from emitter.go: append a fresh once capturer record. -/
def CaptureOnce (em : Emitter) (handler : Nat) (newId : Nat) : Capturer × Emitter :=
  let x : Capturer := { id := newId, handler := handler, once := true }
  (x, { em with capturers := em.capturers ++ [x] })

/-- The scan of RemoveListener: find the index of the first entry that is the
given record (Go pointer comparison, modelled by id equality). -/
def scanListenerIdx (tid : Nat) : List Listener → Nat → Option Nat
  | [], _ => none
  | x :: rest, i => if x.id = tid then some i else scanListenerIdx tid rest (i + 1)

/-- The scan of RemoveCapturer over the capturer slice. -/
def scanCapturerIdx (tid : Nat) : List Capturer → Nat → Option Nat
  | [], _ => none
  | x :: rest, i => if x.id = tid then some i else scanCapturerIdx tid rest (i + 1)

/-- RemoveListener from emitter.go: scan the slice of the given event for the
handle by identity and remove it at its index; if absent, return. -/
def RemoveListener (em : Emitter) (event : EventType) (target : Listener) : Emitter :=
  match scanListenerIdx target.id (lookupL em.listeners event) 0 with
  | none => em
  | some i => { em with listeners := removeListenerAtIndex em.listeners event i }

/-- RemoveAllListenersForEvent from emitter.go: store an empty slice. -/
def RemoveAllListenersForEvent (em : Emitter) (event : EventType) : Emitter :=
  { em with listeners := setL em.listeners event [] }

/-- RemoveAllListeners from emitter.go: replace the map with a fresh one. -/
def RemoveAllListeners (em : Emitter) : Emitter :=
  { em with listeners := [] }

/-- RemoveCapturer from emitter.go: scan the capturer slice for the handle by
identity and remove it at its index; if absent, return. -/
def RemoveCapturer (em : Emitter) (target : Capturer) : Emitter :=
  match scanCapturerIdx target.id em.capturers 0 with
  | none => em
  | some i => { em with capturers := removeCapturerAtIndex em.capturers i }

/-- RemoveAllCapturers from emitter.go: replace the slice with a fresh one. -/
def RemoveAllCapturers (em : Emitter) : Emitter :=
  { em with capturers := [] }

/-! ### Basic lemmas about the map model -/

theorem lookupL_setL_self (m : ListMap) (e : EventType) (v : List Listener) :
    lookupL (setL m e v) e = v := by
  induction m with
  | nil => simp [setL, lookupL]
  | cons p rest ih =>
    obtain ⟨k, w⟩ := p
    by_cases h : k = e
    · simp [setL, lookupL, h]
    · simp [setL, lookupL, h, ih]

theorem lookupL_setL_ne (m : ListMap) (e : EventType) (v : List Listener)
    (x : EventType) (h : x ≠ e) : lookupL (setL m e v) x = lookupL m x := by
  have hne : ¬(e = x) := fun hh => h (Eq.symm hh)
  induction m with
  | nil => simp [setL, lookupL, hne]
  | cons p rest ih =>
    obtain ⟨k, w⟩ := p
    by_cases hk : k = e
    · subst hk
      simp [setL, lookupL, hne]
    · simp [setL, lookupL, hk, ih]

/-- Reading the element right after a known prefix. -/
theorem getElemMid {α : Type} (pre post : List α) (x : α) :
    (pre ++ x :: post)[pre.length]? = some x := by
  induction pre with
  | nil => simp
  | cons p rest ih => simpa using ih

/-- Shift-left-and-truncate at the index of a known entry drops exactly that
entry. -/
theorem eraseMid {α : Type} (pre post : List α) (x : α) :
    (pre ++ x :: post).take pre.length ++ (pre ++ x :: post).drop (pre.length + 1) =
      pre ++ post := by
  induction pre with
  | nil => simp
  | cons p rest ih => simp [ih]

/-! ### The emission loops visit each entry of the original slice exactly
once, in order, and strip exactly the once entries. -/

theorem listenerLoop_spec (event : EventType) (a : Nat) :
    ∀ (todo done : List Listener) (m : ListMap) (index removed : Nat),
      removed ≤ index →
      index - removed = done.length →
      lookupL m event = done ++ todo →
      ∃ mf, listenerLoop event a todo.length index removed m =
          some (mf, todo.map (fun l => TraceEntry.lis l a)) ∧
        lookupL mf event = done ++ todo.filter (fun l => !l.once) ∧
        ∀ x, x ≠ event → lookupL mf x = lookupL m x := by
  intro todo
  induction todo with
  | nil =>
    intro done m index removed _ _ hm
    exact ⟨m, rfl, by simpa using hm, fun _ _ => rfl⟩
  | cons t rest ih =>
    intro done m index removed hle hlen hm
    have hget : (lookupL m event)[index - removed]? = some t := by
      rw [hm, hlen]; exact getElemMid done rest t
    by_cases honce : t.once = true
    · have hrem : removeListenerAtIndex m event (index - removed) =
          setL m event (done ++ rest) := by
        unfold removeListenerAtIndex
        rw [hm, hlen, eraseMid]
      have hm' : lookupL (setL m event (done ++ rest)) event = done ++ rest :=
        lookupL_setL_self _ _ _
      obtain ⟨mf, hloop, hfin, hframe⟩ :=
        ih done (setL m event (done ++ rest)) (index + 1) (removed + 1)
          (by omega) (by omega) hm'
      refine ⟨mf, ?_, ?_, ?_⟩
      · show listenerLoop event a (rest.length + 1) index removed m = _
        simp [listenerLoop, hget, honce, hrem, hloop]
      · rw [hfin]
        simp [honce]
      · intro x hx
        rw [hframe x hx, lookupL_setL_ne _ _ _ _ hx]
    · have honce' : t.once = false := by
        cases h : t.once
        · rfl
        · exact absurd h honce
      obtain ⟨mf, hloop, hfin, hframe⟩ :=
        ih (done ++ [t]) m (index + 1) removed
          (by omega) (by simp; omega) (by rw [hm]; simp)
      refine ⟨mf, ?_, ?_, ?_⟩
      · show listenerLoop event a (rest.length + 1) index removed m = _
        simp [listenerLoop, hget, honce', hloop]
      · rw [hfin]
        simp [honce']
      · exact hframe

theorem capturerLoop_spec (event : EventType) (a : Nat) :
    ∀ (todo done : List Capturer) (index removed : Nat),
      removed ≤ index →
      index - removed = done.length →
      capturerLoop event a todo.length index removed (done ++ todo) =
        some (done ++ todo.filter (fun c => !c.once),
          todo.map (fun c => TraceEntry.cap c event a)) := by
  intro todo
  induction todo with
  | nil =>
    intro done index removed _ _
    simp [capturerLoop]
  | cons t rest ih =>
    intro done index removed hle hlen
    have hget : (done ++ t :: rest)[index - removed]? = some t := by
      rw [hlen]; exact getElemMid done rest t
    by_cases honce : t.once = true
    · have hrem : removeCapturerAtIndex (done ++ t :: rest) (index - removed) =
          done ++ rest := by
        unfold removeCapturerAtIndex
        rw [hlen, eraseMid]
      have hloop := ih done (index + 1) (removed + 1) (by omega) (by omega)
      show capturerLoop event a (rest.length + 1) index removed (done ++ t :: rest) = _
      simp [capturerLoop, hget, honce, hrem, hloop]
    · have honce' : t.once = false := by
        cases h : t.once
        · rfl
        · exact absurd h honce
      have hloop := ih (done ++ [t]) (index + 1) removed (by omega) (by simp; omega)
      simp only [List.append_assoc, List.singleton_append] at hloop
      show capturerLoop event a (rest.length + 1) index removed (done ++ t :: rest) = _
      simp [capturerLoop, hget, honce', hloop]

/-- Master characterisation of EmitEvent: it always succeeds, its trace is
the listeners of the event in order followed by all capturers in order, and
the final state keeps everything except the once entries that fired. -/
theorem EmitEvent_spec (em : Emitter) (event : EventType) (a : Nat) :
    ∃ em2, EmitEvent em event a =
        some (em2, (lookupL em.listeners event).map (fun l => TraceEntry.lis l a)
          ++ em.capturers.map (fun c => TraceEntry.cap c event a)) ∧
      lookupL em2.listeners event =
        (lookupL em.listeners event).filter (fun l => !l.once) ∧
      (∀ x, x ≠ event → lookupL em2.listeners x = lookupL em.listeners x) ∧
      em2.capturers = em.capturers.filter (fun c => !c.once) ∧
      em2.async = em.async := by
  obtain ⟨mf, hloop, hfin, hframe⟩ :=
    listenerLoop_spec event a (lookupL em.listeners event) [] em.listeners 0 0
      (le_refl 0) rfl rfl
  have hcap := capturerLoop_spec event a em.capturers [] 0 0 (le_refl 0) rfl
  simp only [List.nil_append] at hcap
  refine ⟨{ em with listeners := mf, capturers := em.capturers.filter (fun c => !c.once) },
    ?_, ?_, ?_, rfl, rfl⟩
  · unfold EmitEvent
    rw [hloop, hcap]
  · simpa using hfin
  · exact hframe

/-! ### Counting invocations of a given registered record -/

/-- A trace entry is an invocation of the listener record with the given id. -/
def isFireOfL (i : Nat) : TraceEntry → Bool
  | .lis x _ => x.id == i
  | .cap _ _ _ => false

/-- A trace entry is an invocation of the capturer record with the given id. -/
def isFireOfC (i : Nat) : TraceEntry → Bool
  | .lis _ _ => false
  | .cap x _ _ => x.id == i

/-- A trace entry is a capturer invocation. -/
def isCapEntry : TraceEntry → Bool
  | .lis _ _ => false
  | .cap _ _ _ => true

/-- Number of invocations of listener id i in a trace. -/
def countFiredL (tr : List TraceEntry) (i : Nat) : Nat := tr.countP (isFireOfL i)

/-- Number of invocations of capturer id i in a trace. -/
def countFiredC (tr : List TraceEntry) (i : Nat) : Nat := tr.countP (isFireOfC i)

/-- Number of entries with the given id registered for the given event. -/
def idCountIn (em : Emitter) (event : EventType) (i : Nat) : Nat :=
  (lookupL em.listeners event).countP (fun l => l.id == i)

/-- Number of capturer entries with the given id. -/
def capCount (em : Emitter) (i : Nat) : Nat :=
  em.capturers.countP (fun c => c.id == i)

/-- A sequence of EmitEvent calls, with the concatenated trace. -/
def emitSeq (em : Emitter) : List (EventType × Nat) → Option (Emitter × List TraceEntry)
  | [] => some (em, [])
  | (e, a) :: rest =>
    match EmitEvent em e a with
    | none => none
    | some (em1, tr1) =>
      match emitSeq em1 rest with
      | none => none
      | some (em2, tr2) => some (em2, tr1 ++ tr2)

theorem countFiredL_mapL (xs : List Listener) (a i : Nat) :
    countFiredL (xs.map (fun l => TraceEntry.lis l a)) i =
      xs.countP (fun l => l.id == i) := by
  unfold countFiredL
  rw [List.countP_map]
  rfl

theorem countFiredL_mapC (cs : List Capturer) (event : EventType) (a i : Nat) :
    countFiredL (cs.map (fun c => TraceEntry.cap c event a)) i = 0 := by
  unfold countFiredL
  rw [List.countP_map]
  simp [isFireOfL, Function.comp]

theorem countFiredC_mapL (xs : List Listener) (a i : Nat) :
    countFiredC (xs.map (fun l => TraceEntry.lis l a)) i = 0 := by
  unfold countFiredC
  rw [List.countP_map]
  simp [isFireOfC, Function.comp]

theorem countFiredC_mapC (cs : List Capturer) (event : EventType) (a i : Nat) :
    countFiredC (cs.map (fun c => TraceEntry.cap c event a)) i =
      cs.countP (fun c => c.id == i) := by
  unfold countFiredC
  rw [List.countP_map]
  rfl

/-- One emission fires listener id i exactly as often as it is registered for
the emitted event. -/
theorem fired_count_eq (em : Emitter) (event : EventType) (a : Nat)
    (em1 : Emitter) (tr : List TraceEntry) (h : EmitEvent em event a = some (em1, tr)) :
    ∀ i, countFiredL tr i = idCountIn em event i := by
  intro i
  obtain ⟨em2, heq, _, _, _, _⟩ := EmitEvent_spec em event a
  rw [h] at heq
  obtain ⟨rfl, rfl⟩ := Prod.mk.injEq .. ▸ (Option.some.inj heq)
  unfold countFiredL idCountIn
  rw [List.countP_append]
  have h1 := countFiredL_mapL (lookupL em.listeners event) a i
  have h2 := countFiredL_mapC em.capturers event a i
  unfold countFiredL at h1 h2
  omega

/-- One emission fires capturer id i exactly as often as it is registered. -/
theorem firedC_count_eq (em : Emitter) (event : EventType) (a : Nat)
    (em1 : Emitter) (tr : List TraceEntry) (h : EmitEvent em event a = some (em1, tr)) :
    ∀ i, countFiredC tr i = capCount em i := by
  intro i
  obtain ⟨em2, heq, _, _, _, _⟩ := EmitEvent_spec em event a
  rw [h] at heq
  obtain ⟨rfl, rfl⟩ := Prod.mk.injEq .. ▸ (Option.some.inj heq)
  unfold countFiredC capCount
  rw [List.countP_append]
  have h1 := countFiredC_mapL (lookupL em.listeners event) a i
  have h2 := countFiredC_mapC em.capturers event a i
  unfold countFiredC at h1 h2
  omega

/-- Emission never increases how often an id is registered anywhere. -/
theorem idCountIn_mono (em : Emitter) (event : EventType) (a : Nat)
    (em1 : Emitter) (tr : List TraceEntry) (h : EmitEvent em event a = some (em1, tr)) :
    ∀ x i, idCountIn em1 x i ≤ idCountIn em x i := by
  intro x i
  obtain ⟨em2, heq, hfin, hframe, _, _⟩ := EmitEvent_spec em event a
  rw [h] at heq
  obtain ⟨rfl, -⟩ := Prod.mk.injEq .. ▸ (Option.some.inj heq)
  unfold idCountIn
  by_cases hx : x = event
  · subst hx
    rw [hfin, List.countP_filter]
    exact List.countP_mono_left (fun l _ hl => by
      simp only [Bool.and_eq_true] at hl
      exact hl.1)
  · rw [hframe x hx]

theorem capCount_mono (em : Emitter) (event : EventType) (a : Nat)
    (em1 : Emitter) (tr : List TraceEntry) (h : EmitEvent em event a = some (em1, tr)) :
    ∀ i, capCount em1 i ≤ capCount em i := by
  intro i
  obtain ⟨em2, heq, _, _, hcap, _⟩ := EmitEvent_spec em event a
  rw [h] at heq
  obtain ⟨rfl, -⟩ := Prod.mk.injEq .. ▸ (Option.some.inj heq)
  unfold capCount
  rw [hcap, List.countP_filter]
  exact List.countP_mono_left (fun c _ hc => by
    simp only [Bool.and_eq_true] at hc
    exact hc.1)

/-- Emission of another event leaves an id count at its event untouched. -/
theorem idCountIn_frame (em : Emitter) (event : EventType) (a : Nat)
    (em1 : Emitter) (tr : List TraceEntry) (h : EmitEvent em event a = some (em1, tr)) :
    ∀ x i, x ≠ event → idCountIn em1 x i = idCountIn em x i := by
  intro x i hx
  obtain ⟨em2, heq, _, hframe, _, _⟩ := EmitEvent_spec em event a
  rw [h] at heq
  obtain ⟨rfl, -⟩ := Prod.mk.injEq .. ▸ (Option.some.inj heq)
  unfold idCountIn
  rw [hframe x hx]

/-- After an emission that fired a uniquely registered once entry, the id is
no longer registered for the event. -/
theorem once_gone (em : Emitter) (event : EventType) (a : Nat)
    (em1 : Emitter) (tr : List TraceEntry) (h : EmitEvent em event a = some (em1, tr))
    (i : Nat)
    (hall : ∀ l ∈ lookupL em.listeners event, l.id = i → l.once = true) :
    idCountIn em1 event i = 0 := by
  obtain ⟨em2, heq, hfin, _, _, _⟩ := EmitEvent_spec em event a
  rw [h] at heq
  obtain ⟨rfl, -⟩ := Prod.mk.injEq .. ▸ (Option.some.inj heq)
  unfold idCountIn
  rw [hfin, List.countP_eq_zero]
  intro l hl
  rw [List.mem_filter] at hl
  simp only [Bool.not_eq_eq_eq_not, Bool.not_true] at hl
  intro hid
  have := hall l hl.1 (by simpa using hid)
  rw [this] at hl
  exact absurd hl.2 (by simp)

/-- An id registered nowhere fires in no subsequent emission and stays
registered nowhere. -/
theorem seq_zero (i : Nat) :
    ∀ (evs : List (EventType × Nat)) (em : Emitter),
      (∀ x, idCountIn em x i = 0) →
      ∀ em2 tr, emitSeq em evs = some (em2, tr) →
        countFiredL tr i = 0 ∧ ∀ x, idCountIn em2 x i = 0 := by
  intro evs
  induction evs with
  | nil =>
    intro em hz em2 tr h
    obtain ⟨rfl, rfl⟩ := Prod.mk.injEq .. ▸ (Option.some.inj h)
    exact ⟨rfl, hz⟩
  | cons p rest ih =>
    intro em hz em2 tr h
    obtain ⟨e, a⟩ := p
    obtain ⟨emA, heqA, -, -, -, -⟩ := EmitEvent_spec em e a
    simp only [emitSeq, heqA] at h
    cases hrest : emitSeq emA rest with
    | none => simp [hrest] at h
    | some v =>
      obtain ⟨emB, trB⟩ := v
      simp only [hrest] at h
      obtain ⟨rfl, rfl⟩ := Prod.mk.injEq .. ▸ (Option.some.inj h)
      have hzA : ∀ x, idCountIn emA x i = 0 := by
        intro x
        have h1 := idCountIn_mono em e a emA _ heqA x i
        have h2 := hz x
        omega
      obtain ⟨hc, hz2⟩ := ih emA hzA emB trB hrest
      refine ⟨?_, hz2⟩
      unfold countFiredL
      rw [List.countP_append]
      have hfd := fired_count_eq em e a emA _ heqA i
      unfold countFiredL at hfd
      rw [hz e] at hfd
      unfold countFiredL at hc
      omega

/-- Capturer analogue of seq_zero. -/
theorem seqC_zero (i : Nat) :
    ∀ (evs : List (EventType × Nat)) (em : Emitter),
      capCount em i = 0 →
      ∀ em2 tr, emitSeq em evs = some (em2, tr) →
        countFiredC tr i = 0 ∧ capCount em2 i = 0 := by
  intro evs
  induction evs with
  | nil =>
    intro em hz em2 tr h
    obtain ⟨rfl, rfl⟩ := Prod.mk.injEq .. ▸ (Option.some.inj h)
    exact ⟨rfl, hz⟩
  | cons p rest ih =>
    intro em hz em2 tr h
    obtain ⟨e, a⟩ := p
    obtain ⟨emA, heqA, -, -, -, -⟩ := EmitEvent_spec em e a
    simp only [emitSeq, heqA] at h
    cases hrest : emitSeq emA rest with
    | none => simp [hrest] at h
    | some v =>
      obtain ⟨emB, trB⟩ := v
      simp only [hrest] at h
      obtain ⟨rfl, rfl⟩ := Prod.mk.injEq .. ▸ (Option.some.inj h)
      have hzA : capCount emA i = 0 := by
        have := capCount_mono em e a emA _ heqA i
        omega
      obtain ⟨hc, hz2⟩ := ih emA hzA emB trB hrest
      refine ⟨?_, hz2⟩
      unfold countFiredC
      rw [List.countP_append]
      have hfd := firedC_count_eq em e a emA _ heqA i
      unfold countFiredC at hfd
      rw [hz] at hfd
      unfold countFiredC at hc
      omega

/-- Capturer analogue of once_gone. -/
theorem onceC_gone (em : Emitter) (event : EventType) (a : Nat)
    (em1 : Emitter) (tr : List TraceEntry) (h : EmitEvent em event a = some (em1, tr))
    (i : Nat)
    (hall : ∀ c ∈ em.capturers, c.id = i → c.once = true) :
    capCount em1 i = 0 := by
  obtain ⟨em2, heq, _, _, hcap, _⟩ := EmitEvent_spec em event a
  rw [h] at heq
  obtain ⟨rfl, -⟩ := Prod.mk.injEq .. ▸ (Option.some.inj heq)
  unfold capCount
  rw [hcap, List.countP_eq_zero]
  intro c hc
  rw [List.mem_filter] at hc
  simp only [Bool.not_eq_eq_eq_not, Bool.not_true] at hc
  intro hid
  have := hall c hc.1 (by simpa using hid)
  rw [this] at hc
  exact absurd hc.2 (by simp)

/-- Lifetime of a once listener uniquely registered for one event: over any
sequence of emissions, it fires exactly once if the sequence emits its event
at all, and zero times otherwise; once the event has been emitted the id is
gone from the whole registry. -/
theorem seq_once (E : EventType) (i : Nat) :
    ∀ (evs : List (EventType × Nat)) (em : Emitter),
      idCountIn em E i = 1 →
      (∀ x, x ≠ E → idCountIn em x i = 0) →
      (∀ l ∈ lookupL em.listeners E, l.id = i → l.once = true) →
      ∀ em2 tr, emitSeq em evs = some (em2, tr) →
        countFiredL tr i = (if evs.any (fun p => p.1 == E) then 1 else 0) ∧
        (evs.any (fun p => p.1 == E) = true → ∀ x, idCountIn em2 x i = 0) := by
  intro evs
  induction evs with
  | nil =>
    intro em h1 h0 hall em2 tr h
    obtain ⟨rfl, rfl⟩ := Prod.mk.injEq .. ▸ (Option.some.inj h)
    exact ⟨rfl, by intro hx; exact absurd hx (by simp)⟩
  | cons p rest ih =>
    intro em h1 h0 hall em2 tr h
    obtain ⟨e, a⟩ := p
    obtain ⟨emA, heqA, hfinA, hframeA, -, -⟩ := EmitEvent_spec em e a
    simp only [emitSeq, heqA] at h
    cases hrest : emitSeq emA rest with
    | none => simp [hrest] at h
    | some v =>
      obtain ⟨emB, trB⟩ := v
      simp only [hrest] at h
      obtain ⟨rfl, rfl⟩ := Prod.mk.injEq .. ▸ (Option.some.inj h)
      have hfired := fired_count_eq em e a emA _ heqA i
      by_cases he : e = E
      · subst he
        have hgone : ∀ x, idCountIn emA x i = 0 := by
          intro x
          by_cases hx : x = e
          · subst hx
            exact once_gone em x a emA _ heqA i hall
          · have hm := idCountIn_mono em e a emA _ heqA x i
            have hz := h0 x hx
            omega
        obtain ⟨hcB, hzB⟩ := seq_zero i rest emA hgone emB trB hrest
        constructor
        · unfold countFiredL
          rw [List.countP_append]
          unfold countFiredL at hfired hcB
          simp only [List.any_cons, beq_self_eq_true, Bool.true_or, if_true]
          omega
        · intro _
          exact hzB
      · have hE1 : idCountIn emA E i = 1 := by
          rw [idCountIn_frame em e a emA _ heqA E i (fun hh => he hh.symm)]
          exact h1
        have hE0 : ∀ x, x ≠ E → idCountIn emA x i = 0 := by
          intro x hx
          have hm := idCountIn_mono em e a emA _ heqA x i
          have hz := h0 x hx
          omega
        have hallA : ∀ l ∈ lookupL emA.listeners E, l.id = i → l.once = true := by
          rw [hframeA E (fun hh => he hh.symm)]
          exact hall
        obtain ⟨hcB, hzB⟩ := ih emA hE1 hE0 hallA emB trB hrest
        have hfz : countFiredL (List.map (fun l => TraceEntry.lis l a)
              (lookupL em.listeners e) ++
            List.map (fun c => TraceEntry.cap c e a) em.capturers) i = 0 := by
          rw [hfired]
          exact h0 e he
        constructor
        · unfold countFiredL
          rw [List.countP_append]
          unfold countFiredL at hfz hcB
          have hbeq : (e == E) = false := by
            simp [he]
          simp only [List.any_cons, hbeq, Bool.false_or]
          omega
        · intro hany
          have hbeq : (e == E) = false := by
            simp [he]
          rw [List.any_cons, hbeq, Bool.false_or] at hany
          exact hzB hany

/-- Lifetime of a once capturer: over any sequence of emissions it fires
exactly once if the sequence is nonempty (the first emission of any event),
and is gone from the capturer slice afterwards. -/
theorem seqC_once (i : Nat) :
    ∀ (evs : List (EventType × Nat)) (em : Emitter),
      capCount em i = 1 →
      (∀ c ∈ em.capturers, c.id = i → c.once = true) →
      ∀ em2 tr, emitSeq em evs = some (em2, tr) →
        countFiredC tr i = (if evs.isEmpty then 0 else 1) ∧
        (evs.isEmpty = false → capCount em2 i = 0) := by
  intro evs
  induction evs with
  | nil =>
    intro em h1 hall em2 tr h
    obtain ⟨rfl, rfl⟩ := Prod.mk.injEq .. ▸ (Option.some.inj h)
    exact ⟨rfl, by intro hx; exact absurd hx (by simp)⟩
  | cons p rest ih =>
    intro em h1 hall em2 tr h
    obtain ⟨e, a⟩ := p
    obtain ⟨emA, heqA, -, -, -, -⟩ := EmitEvent_spec em e a
    simp only [emitSeq, heqA] at h
    cases hrest : emitSeq emA rest with
    | none => simp [hrest] at h
    | some v =>
      obtain ⟨emB, trB⟩ := v
      simp only [hrest] at h
      obtain ⟨rfl, rfl⟩ := Prod.mk.injEq .. ▸ (Option.some.inj h)
      have hfired := firedC_count_eq em e a emA _ heqA i
      have hgone : capCount emA i = 0 := onceC_gone em e a emA _ heqA i hall
      obtain ⟨hcB, hzB⟩ := seqC_zero i rest emA hgone emB trB hrest
      constructor
      · unfold countFiredC
        rw [List.countP_append]
        unfold countFiredC at hfired hcB
        simp only [List.isEmpty_cons, if_false, Bool.false_eq_true]
        omega
      · intro _
        exact hzB

/-! ### Removal scan lemmas -/

theorem scanListenerIdx_none (tid : Nat) :
    ∀ (xs : List Listener) (i : Nat), (∀ x ∈ xs, x.id ≠ tid) →
      scanListenerIdx tid xs i = none := by
  intro xs
  induction xs with
  | nil => intro i _; rfl
  | cons x rest ih =>
    intro i hx
    have h1 : x.id ≠ tid := hx x (by simp)
    simp only [scanListenerIdx, if_neg h1]
    exact ih (i + 1) (fun y hy => hx y (by simp [hy]))

theorem scanCapturerIdx_none (tid : Nat) :
    ∀ (xs : List Capturer) (i : Nat), (∀ x ∈ xs, x.id ≠ tid) →
      scanCapturerIdx tid xs i = none := by
  intro xs
  induction xs with
  | nil => intro i _; rfl
  | cons x rest ih =>
    intro i hx
    have h1 : x.id ≠ tid := hx x (by simp)
    simp only [scanCapturerIdx, if_neg h1]
    exact ih (i + 1) (fun y hy => hx y (by simp [hy]))

theorem scanListenerIdx_found (tid : Nat) :
    ∀ (pre : List Listener) (x : Listener) (post : List Listener) (i : Nat),
      (∀ y ∈ pre, y.id ≠ tid) → x.id = tid →
      scanListenerIdx tid (pre ++ x :: post) i = some (i + pre.length) := by
  intro pre
  induction pre with
  | nil =>
    intro x post i _ hx
    simp [scanListenerIdx, hx]
  | cons p rest ih =>
    intro x post i hpre hx
    have h1 : p.id ≠ tid := hpre p (by simp)
    simp only [List.cons_append, scanListenerIdx, if_neg h1, List.append_eq]
    rw [ih x post (i + 1) (fun y hy => hpre y (by simp [hy])) hx]
    congr 1
    simp
    omega

theorem scanCapturerIdx_found (tid : Nat) :
    ∀ (pre : List Capturer) (x : Capturer) (post : List Capturer) (i : Nat),
      (∀ y ∈ pre, y.id ≠ tid) → x.id = tid →
      scanCapturerIdx tid (pre ++ x :: post) i = some (i + pre.length) := by
  intro pre
  induction pre with
  | nil =>
    intro x post i _ hx
    simp [scanCapturerIdx, hx]
  | cons p rest ih =>
    intro x post i hpre hx
    have h1 : p.id ≠ tid := hpre p (by simp)
    simp only [List.cons_append, scanCapturerIdx, if_neg h1, List.append_eq]
    rw [ih x post (i + 1) (fun y hy => hpre y (by simp [hy])) hx]
    congr 1
    simp
    omega

/-! ### Capturer entries of a trace -/

theorem filterCap_mapL (xs : List Listener) (a : Nat) :
    (xs.map (fun l => TraceEntry.lis l a)).filter isCapEntry = [] := by
  induction xs with
  | nil => rfl
  | cons x rest ih => simp [isCapEntry, ih]

theorem filterCap_mapC (cs : List Capturer) (event : EventType) (a : Nat) :
    (cs.map (fun c => TraceEntry.cap c event a)).filter isCapEntry =
      cs.map (fun c => TraceEntry.cap c event a) := by
  induction cs with
  | nil => rfl
  | cons c rest ih => simp [isCapEntry, ih]

/-! ### The mutex model of EmitEvent

emitter.go locks listenerMutex at the top of EmitEvent and releases it with
defer at return, so in synchronous mode every handler body runs while the
goroutine still holds the mutex.  sync.Mutex is not re-entrant: a second
Lock() by the same goroutine blocks forever.  The interpreter below makes
the lock state explicit in order to settle the re-entrancy claims.  Handler
bodies are given meaning by a map from handler id to a list of emitter
actions the body performs; a handler that does not touch the emitter has the
empty list.  The interpreter models synchronous mode (async = false), where
the handler body runs inline on the emitting goroutine. -/

/-- An action a handler body performs on the same emitter while it runs. -/
inductive Act where
  | emit (event : EventType) (a : Nat)
deriving Repr

/-- Result of running code that may block forever on the emitter mutex: ok
with the final state and invocation trace, deadlock on a re-entrant Lock, or
stuck when the interpreter runs out of fuel or an index is out of bounds. -/
inductive RunRes where
  | ok (em : Emitter) (tr : List TraceEntry)
  | deadlock
  | stuck
deriving DecidableEq, Repr

mutual

/-- EmitEvent from emitter.go with the mutex explicit, synchronous mode:
Lock() at entry deadlocks if this goroutine already holds listenerMutex,
both loops run with the mutex held, and the deferred Unlock() takes effect
at return (the caller keeps its own locked flag). -/
def runEmit (progs : Nat → List Act) (fuel : Nat) (locked : Bool) (em : Emitter)
    (event : EventType) (a : Nat) : RunRes :=
  match fuel with
  | 0 => .stuck
  | f + 1 =>
    if locked then .deadlock
    else
      match runLLoop progs f a event (lookupL em.listeners event).length 0 0 em with
      | .ok em1 trL =>
        match runCLoop progs f a event em1.capturers.length 0 0 em1 with
        | .ok em2 trC => .ok em2 (trL ++ trC)
        | other => other
      | other => other

/-- The listener loop of EmitEvent with the mutex held: the handler body at
index - removed runs inline with locked = true, then the once flag of the
entry now at that index is checked and the entry removed if set. -/
def runLLoop (progs : Nat → List Act) (fuel : Nat) (a : Nat) (event : EventType)
    (rem index removed : Nat) (em : Emitter) : RunRes :=
  match fuel with
  | 0 => .stuck
  | f + 1 =>
    match rem with
    | 0 => .ok em []
    | r + 1 =>
      match (lookupL em.listeners event)[index - removed]? with
      | none => .stuck
      | some x =>
        match runActs progs f true em (progs x.handler) with
        | .ok em1 trH =>
          match (lookupL em1.listeners event)[index - removed]? with
          | none => .stuck
          | some x2 =>
            match runLLoop progs f a event r (index + 1)
                (if x2.once then removed + 1 else removed)
                (if x2.once then
                  { em1 with listeners :=
                      removeListenerAtIndex em1.listeners event (index - removed) }
                else em1) with
            | .ok em3 tr => .ok em3 (TraceEntry.lis x a :: (trH ++ tr))
            | other => other
        | other => other

/-- The capturer loop of EmitEvent with the mutex held. -/
def runCLoop (progs : Nat → List Act) (fuel : Nat) (a : Nat) (event : EventType)
    (rem index removed : Nat) (em : Emitter) : RunRes :=
  match fuel with
  | 0 => .stuck
  | f + 1 =>
    match rem with
    | 0 => .ok em []
    | r + 1 =>
      match em.capturers[index - removed]? with
      | none => .stuck
      | some x =>
        match runActs progs f true em (progs x.handler) with
        | .ok em1 trH =>
          match em1.capturers[index - removed]? with
          | none => .stuck
          | some x2 =>
            match runCLoop progs f a event r (index + 1)
                (if x2.once then removed + 1 else removed)
                (if x2.once then
                  { em1 with capturers :=
                      removeCapturerAtIndex em1.capturers (index - removed) }
                else em1) with
            | .ok em3 tr => .ok em3 (TraceEntry.cap x event a :: (trH ++ tr))
            | other => other
        | other => other

/-- Run a handler body: each action is a re-entrant call into the same
emitter, made while the invoking EmitEvent still holds the mutex. -/
def runActs (progs : Nat → List Act) (fuel : Nat) (locked : Bool) (em : Emitter) :
    List Act → RunRes
  | [] => .ok em []
  | Act.emit e a :: rest =>
    match fuel with
    | 0 => .stuck
    | f + 1 =>
      match runEmit progs f locked em e a with
      | .ok em1 tr1 =>
        match runActs progs f locked em1 rest with
        | .ok em2 tr2 => .ok em2 (tr1 ++ tr2)
        | other => other
      | other => other

end

/-! ### Lifetime of once registrations -/

/-- After ListenOnce with an id fresh for the whole registry, any sequence of
emissions fires the listener exactly once when the sequence emits its event
at all, zero times otherwise, and once fired the id is gone everywhere. -/
theorem listenOnce_lifetime (em : Emitter) (E : EventType) (hid lid : Nat)
    (hfr : ∀ x, idCountIn em x lid = 0) (evs : List (EventType × Nat)) :
    ∀ em2 tr, emitSeq (ListenOnce em E hid lid).2 evs = some (em2, tr) →
      countFiredL tr lid = (if evs.any (fun p => p.1 == E) then 1 else 0) ∧
      (evs.any (fun p => p.1 == E) = true → ∀ x, idCountIn em2 x lid = 0) := by
  have horig := hfr E
  unfold idCountIn at horig
  have hlk : lookupL (ListenOnce em E hid lid).2.listeners E =
      lookupL em.listeners E ++ [⟨lid, hid, true⟩] := lookupL_setL_self _ _ _
  have h1 : idCountIn (ListenOnce em E hid lid).2 E lid = 1 := by
    unfold idCountIn
    rw [hlk, List.countP_append, horig]
    simp
  have h0 : ∀ x, x ≠ E → idCountIn (ListenOnce em E hid lid).2 x lid = 0 := by
    intro x hx
    unfold idCountIn
    have heq : lookupL (ListenOnce em E hid lid).2.listeners x = lookupL em.listeners x :=
      lookupL_setL_ne _ _ _ x hx
    rw [heq]
    exact hfr x
  have hall : ∀ l ∈ lookupL (ListenOnce em E hid lid).2.listeners E,
      l.id = lid → l.once = true := by
    rw [hlk]
    intro l hlmem hideq
    rcases List.mem_append.mp hlmem with hmem | hmem
    · exact absurd (by simp [hideq]) (List.countP_eq_zero.mp horig l hmem)
    · simp only [List.mem_singleton] at hmem
      rw [hmem]
  exact seq_once E lid evs _ h1 h0 hall

/-- After CaptureOnce with a fresh id, any sequence of emissions fires the
capturer exactly once when the sequence is nonempty, on its first emission,
and the capturer is gone afterwards. -/
theorem captureOnce_lifetime (em : Emitter) (hid cid : Nat)
    (hfr : capCount em cid = 0) (evs : List (EventType × Nat)) :
    ∀ em2 tr, emitSeq (CaptureOnce em hid cid).2 evs = some (em2, tr) →
      countFiredC tr cid = (if evs.isEmpty then 0 else 1) ∧
      (evs.isEmpty = false → capCount em2 cid = 0) := by
  have horig := hfr
  unfold capCount at horig
  have hcs : (CaptureOnce em hid cid).2.capturers = em.capturers ++ [⟨cid, hid, true⟩] := rfl
  have h1 : capCount (CaptureOnce em hid cid).2 cid = 1 := by
    unfold capCount
    rw [hcs, List.countP_append, horig]
    simp
  have hall : ∀ c ∈ (CaptureOnce em hid cid).2.capturers, c.id = cid → c.once = true := by
    rw [hcs]
    intro c hcmem hideq
    rcases List.mem_append.mp hcmem with hmem | hmem
    · exact absurd (by simp [hideq]) (List.countP_eq_zero.mp horig c hmem)
    · simp only [List.mem_singleton] at hmem
      rw [hmem]
  exact seqC_once cid evs _ h1 hall

/-! ### Sample states for the concrete witnesses -/

/-- A state with one listener on event A and one capturer. -/
def emA : Emitter :=
  { async := false, capturers := [⟨3, 0, false⟩], listeners := [("A", [⟨1, 0, false⟩])] }

/-- A state with a once listener between two plain listeners on event A and a
once capturer after a plain capturer. -/
def emB : Emitter :=
  { async := false, capturers := [⟨4, 0, false⟩, ⟨5, 0, true⟩], listeners := [("A", [⟨1, 0, false⟩, ⟨2, 0, true⟩, ⟨3, 0, false⟩])] }

/-- A state with a single listener registered under event E1 only. -/
def emC : Emitter :=
  { async := false, capturers := [], listeners := [("E1", [⟨0, 0, false⟩])] }

/-! ### The claims -/

/-- Claim C1: for every emitter state and event E, one EmitEvent(E, args)
call invokes each listener currently registered for E exactly once with
args and each registered capturer exactly once with (E, args); all listeners
for E are invoked before any capturer, and each group runs in registration
order.  The invocation trace is exactly the listener slice of E in order,
each with the arguments, followed by the capturer slice in order. -/
theorem claim_C1 (em : Emitter) (event : EventType) (a : Nat) :
    ∃ em2, EmitEvent em event a =
      some (em2, (lookupL em.listeners event).map (fun l => TraceEntry.lis l a)
        ++ em.capturers.map (fun c => TraceEntry.cap c event a)) := by
  obtain ⟨em2, heq, -, -, -, -⟩ := EmitEvent_spec em event a
  exact ⟨em2, heq⟩

/-- Claim C2 is false of the code: EmitEvent holds listenerMutex for its
whole body via defer, including synchronous handler invocation, instead of
releasing it before invoking a snapshot.  A handler that re-entrantly calls
EmitEvent on the same emitter therefore deadlocks: with one listener on
event root whose body emits sub once, EmitEvent(root) deadlocks. -/
theorem claim_C2 :
    runEmit (fun h => if h == 0 then [Act.emit "sub" 0] else []) 10 false { async := false, capturers := [], listeners := [("root", [{ id := 0, handler := 0, once := false }])] } "root" 0 = RunRes.deadlock := by
  simp [runEmit, runLLoop, runActs, lookupL]

/-- Claim C3: a listener or capturer registered with once = true via
ListenOnce or CaptureOnce fires at most once over the emitter's lifetime:
over any sequence of emissions, a fresh once listener fires exactly once
when its event is emitted at all and zero times otherwise, and is removed
from the whole registry by the end of the emission that fired it; a fresh
once capturer fires exactly on the first emission of any event and is then
removed from the capturer slice. -/
theorem claim_C3 (em : Emitter) (E : EventType) (hid lid cid : Nat)
    (evs : List (EventType × Nat))
    (hfrL : ∀ x, idCountIn em x lid = 0)
    (hfrC : capCount em cid = 0) :
    (∀ em2 tr, emitSeq (ListenOnce em E hid lid).2 evs = some (em2, tr) →
      countFiredL tr lid = (if evs.any (fun p => p.1 == E) then 1 else 0) ∧
      (evs.any (fun p => p.1 == E) = true → ∀ x, idCountIn em2 x lid = 0)) ∧
    (∀ em2 tr, emitSeq (CaptureOnce em hid cid).2 evs = some (em2, tr) →
      countFiredC tr cid = (if evs.isEmpty then 0 else 1) ∧
      (evs.isEmpty = false → capCount em2 cid = 0)) :=
  ⟨listenOnce_lifetime em E hid lid hfrL evs, captureOnce_lifetime em hid cid hfrC evs⟩

theorem claim_C3_witness :
    (∀ x, idCountIn (NewEmitter false) x 7 = 0) ∧ capCount (NewEmitter false) 9 = 0 ∧
    ((∀ em2 tr,
        emitSeq (ListenOnce (NewEmitter false) "A" 1 7).2 [("A", 5), ("B", 6)] = some (em2, tr) →
        countFiredL tr 7 =
          (if ([("A", 5), ("B", 6)] : List (EventType × Nat)).any (fun p => p.1 == "A")
            then 1 else 0) ∧
        (([("A", 5), ("B", 6)] : List (EventType × Nat)).any (fun p => p.1 == "A") = true →
          ∀ x, idCountIn em2 x 7 = 0)) ∧
      (∀ em2 tr,
        emitSeq (CaptureOnce (NewEmitter false) 1 9).2 [("A", 5), ("B", 6)] = some (em2, tr) →
        countFiredC tr 9 =
          (if ([("A", 5), ("B", 6)] : List (EventType × Nat)).isEmpty then 0 else 1) ∧
        (([("A", 5), ("B", 6)] : List (EventType × Nat)).isEmpty = false →
          capCount em2 9 = 0))) :=
  ⟨fun _ => rfl, rfl,
    claim_C3 (NewEmitter false) "A" 1 7 9 [("A", 5), ("B", 6)] (fun _ => rfl) rfl⟩

/-- Claim C4 is false of the code: in synchronous mode a listener on event
rootevent whose body emits subevent twice deadlocks on the first re-entrant
EmitEvent, because the outer EmitEvent still holds listenerMutex; the
repository's own test TestEmitNonAsyncRecursive expects the sub listener to
fire twice and the root listener once. -/
theorem claim_C4 :
    runEmit (fun h => if h == 0 then [Act.emit "subevent" 1, Act.emit "subevent" 1] else []) 12 false { async := false, capturers := [], listeners := [("rootevent", [{ id := 0, handler := 0, once := false }]), ("subevent", [{ id := 1, handler := 1, once := false }])] } "rootevent" 9 = RunRes.deadlock := by
  simp [runEmit, runLLoop, runActs, lookupL]

/-- Claim C5: removing a listener handle that is not registered under the
given event, or a capturer handle that is not registered, leaves the whole
emitter state unchanged and signals no error. -/
theorem claim_C5 (em : Emitter) (E : EventType) (lt : Listener) (ct : Capturer)
    (hL : ∀ l ∈ lookupL em.listeners E, l.id ≠ lt.id)
    (hC : ∀ c ∈ em.capturers, c.id ≠ ct.id) :
    RemoveListener em E lt = em ∧ RemoveCapturer em ct = em := by
  constructor
  · unfold RemoveListener
    rw [scanListenerIdx_none lt.id (lookupL em.listeners E) 0 hL]
  · unfold RemoveCapturer
    rw [scanCapturerIdx_none ct.id em.capturers 0 hC]

theorem claim_C5_witness :
    (∀ l ∈ lookupL emA.listeners "A", l.id ≠ 2) ∧ (∀ c ∈ emA.capturers, c.id ≠ 4) ∧
    (RemoveListener emA "A" ⟨2, 0, false⟩ = emA ∧ RemoveCapturer emA ⟨4, 0, false⟩ = emA) :=
  ⟨by decide, by decide, claim_C5 emA "A" ⟨2, 0, false⟩ ⟨4, 0, false⟩ (by decide) (by decide)⟩

/-- Claim C6: RemoveListener removes exactly the entry identical to the
handle (by record identity, with the first occurrence the only one when ids
before it differ) and keeps the remaining entries in their original relative
order; the same holds for RemoveCapturer, and automatic once removal during
emission keeps the survivors in their original relative order (the final
slice is the order-preserving filter of the non-once entries). -/
theorem claim_C6 (em : Emitter) (E : EventType) (pre post : List Listener) (x : Listener)
    (cpre cpost : List Capturer) (c : Capturer) (a : Nat)
    (hdec : lookupL em.listeners E = pre ++ x :: post)
    (hpre : ∀ y ∈ pre, y.id ≠ x.id)
    (hcdec : em.capturers = cpre ++ c :: cpost)
    (hcpre : ∀ y ∈ cpre, y.id ≠ c.id) :
    (lookupL (RemoveListener em E x).listeners E = pre ++ post ∧
      (∀ z, z ≠ E → lookupL (RemoveListener em E x).listeners z = lookupL em.listeners z) ∧
      (RemoveListener em E x).capturers = em.capturers) ∧
    ((RemoveCapturer em c).capturers = cpre ++ cpost ∧
      (RemoveCapturer em c).listeners = em.listeners) ∧
    (∃ em2 tr, EmitEvent em E a = some (em2, tr) ∧
      lookupL em2.listeners E = (pre ++ x :: post).filter (fun l => !l.once)) := by
  have hscan : scanListenerIdx x.id (lookupL em.listeners E) 0 = some pre.length := by
    rw [hdec]
    simpa using scanListenerIdx_found x.id pre x post 0 hpre rfl
  have hrl : RemoveListener em E x =
      { em with listeners := removeListenerAtIndex em.listeners E pre.length } := by
    unfold RemoveListener
    rw [hscan]
  have hrm : removeListenerAtIndex em.listeners E pre.length =
      setL em.listeners E (pre ++ post) := by
    unfold removeListenerAtIndex
    rw [hdec, eraseMid]
  have hcscan : scanCapturerIdx c.id em.capturers 0 = some cpre.length := by
    rw [hcdec]
    simpa using scanCapturerIdx_found c.id cpre c cpost 0 hcpre rfl
  have hrc : RemoveCapturer em c =
      { em with capturers := removeCapturerAtIndex em.capturers cpre.length } := by
    unfold RemoveCapturer
    rw [hcscan]
  have hcrm : removeCapturerAtIndex em.capturers cpre.length = cpre ++ cpost := by
    unfold removeCapturerAtIndex
    rw [hcdec, eraseMid]
  refine ⟨⟨?_, ?_, ?_⟩, ⟨?_, ?_⟩, ?_⟩
  · rw [hrl, hrm]
    exact lookupL_setL_self _ _ _
  · intro z hz
    rw [hrl, hrm]
    exact lookupL_setL_ne _ _ _ z hz
  · rw [hrl]
  · rw [hrc, hcrm]
  · rw [hrc]
  · obtain ⟨em2, heq, hfin, -, -, -⟩ := EmitEvent_spec em E a
    refine ⟨em2, _, heq, ?_⟩
    rw [hfin, hdec]

theorem claim_C6_witness :
    lookupL emB.listeners "A" = [⟨1, 0, false⟩] ++ (⟨2, 0, true⟩ : Listener) :: [⟨3, 0, false⟩] ∧
    emB.capturers = [⟨4, 0, false⟩] ++ (⟨5, 0, true⟩ : Capturer) :: [] ∧
    ((lookupL (RemoveListener emB "A" ⟨2, 0, true⟩).listeners "A" =
        [⟨1, 0, false⟩] ++ [⟨3, 0, false⟩] ∧
      (∀ z, z ≠ "A" →
        lookupL (RemoveListener emB "A" ⟨2, 0, true⟩).listeners z = lookupL emB.listeners z) ∧
      (RemoveListener emB "A" ⟨2, 0, true⟩).capturers = emB.capturers) ∧
    ((RemoveCapturer emB ⟨5, 0, true⟩).capturers = [⟨4, 0, false⟩] ++ [] ∧
      (RemoveCapturer emB ⟨5, 0, true⟩).listeners = emB.listeners) ∧
    (∃ em2 tr, EmitEvent emB "A" 8 = some (em2, tr) ∧
      lookupL em2.listeners "A" =
        (([⟨1, 0, false⟩] : List Listener) ++ (⟨2, 0, true⟩ : Listener) :: [⟨3, 0, false⟩]).filter
          (fun l => !l.once))) :=
  ⟨by decide, by decide,
    claim_C6 emB "A" [⟨1, 0, false⟩] [⟨3, 0, false⟩] ⟨2, 0, true⟩ [⟨4, 0, false⟩] []
      ⟨5, 0, true⟩ 8 (by decide) (by decide) (by decide) (by decide)⟩

/-- Claim C7: a capturer registered via AddCapturer is invoked once per
EmitEvent call with the event and the arguments, whatever the event
identifier: the capturer entries of any emission's trace are exactly the
capturer slice in order, each with (event, args).  A capturer registered via
CaptureOnce with a fresh id fires exactly on the first emission of any event
after registration and on no later one. -/
theorem claim_C7 (em : Emitter) (event : EventType) (a : Nat) (hid cid : Nat)
    (evs : List (EventType × Nat)) (hfr : capCount em cid = 0) :
    (∃ em2 tr, EmitEvent em event a = some (em2, tr) ∧
      tr.filter isCapEntry = em.capturers.map (fun c => TraceEntry.cap c event a)) ∧
    (∀ em2 tr, emitSeq (CaptureOnce em hid cid).2 evs = some (em2, tr) →
      countFiredC tr cid = (if evs.isEmpty then 0 else 1) ∧
      (evs.isEmpty = false → capCount em2 cid = 0)) := by
  constructor
  · obtain ⟨em2, heq, -, -, -, -⟩ := EmitEvent_spec em event a
    refine ⟨em2, _, heq, ?_⟩
    rw [List.filter_append, filterCap_mapL, filterCap_mapC, List.nil_append]
  · exact captureOnce_lifetime em hid cid hfr evs

theorem claim_C7_witness :
    capCount (NewEmitter false) 9 = 0 ∧
    ((∃ em2 tr, EmitEvent (NewEmitter false) "B" 2 = some (em2, tr) ∧
        tr.filter isCapEntry =
          (NewEmitter false).capturers.map (fun c => TraceEntry.cap c "B" 2)) ∧
      (∀ em2 tr,
        emitSeq (CaptureOnce (NewEmitter false) 1 9).2 [("B", 2)] = some (em2, tr) →
        countFiredC tr 9 = (if ([("B", 2)] : List (EventType × Nat)).isEmpty then 0 else 1) ∧
        (([("B", 2)] : List (EventType × Nat)).isEmpty = false → capCount em2 9 = 0))) :=
  ⟨rfl, claim_C7 (NewEmitter false) "B" 2 1 9 [("B", 2)] rfl⟩

/-- Claim C8: emitting an event with no listeners registered for it and no
capturers registered invokes no handler, never fails, and returns the state
unchanged. -/
theorem claim_C8 (em : Emitter) (E : EventType) (a : Nat)
    (hL : lookupL em.listeners E = []) (hC : em.capturers = []) :
    EmitEvent em E a = some (em, []) := by
  unfold EmitEvent
  rw [hL, hC]
  simp only [List.length_nil, listenerLoop, capturerLoop]
  rw [← hC]
  rfl

theorem claim_C8_witness :
    lookupL (NewEmitter true).listeners "X" = [] ∧ (NewEmitter true).capturers = [] ∧
    EmitEvent (NewEmitter true) "X" 0 = some (NewEmitter true, []) :=
  ⟨rfl, rfl, claim_C8 (NewEmitter true) "X" 0 rfl rfl⟩

/-- Claim C9: in the removal-adjusted iteration of EmitEvent the index
expression index - removed always stays within the bounds of the current
shrunken slice (a none result models the out-of-bounds panic and never
occurs), and each originally registered entry is visited exactly once, none
skipped and none visited twice, whatever the interleaving of once and
non-once entries. -/
theorem claim_C9 (m : ListMap) (cs : List Capturer) (event : EventType) (a : Nat) :
    (∃ mf, listenerLoop event a (lookupL m event).length 0 0 m =
      some (mf, (lookupL m event).map (fun l => TraceEntry.lis l a))) ∧
    (∃ csf, capturerLoop event a cs.length 0 0 cs =
      some (csf, cs.map (fun c => TraceEntry.cap c event a))) := by
  constructor
  · obtain ⟨mf, h, -, -⟩ :=
      listenerLoop_spec event a (lookupL m event) [] m 0 0 (le_refl 0) rfl rfl
    exact ⟨mf, h⟩
  · have h := capturerLoop_spec event a cs [] 0 0 (le_refl 0) rfl
    simp only [List.nil_append] at h
    exact ⟨_, h⟩

/-- Claim C10: RemoveListener is keyed by both event and handle: removing a
handle under an event where it is not registered changes nothing, the handle
stays registered under its own event and still fires there, and neither
RemoveListener nor RemoveAllListenersForEvent ever modifies the listener
slice of any event other than the one named in the call. -/
theorem claim_C10 (em : Emitter) (E1 E2 : EventType) (a : Nat) (hl : Listener)
    (hreg : hl ∈ lookupL em.listeners E1)
    (habs : ∀ l ∈ lookupL em.listeners E2, l.id ≠ hl.id) :
    RemoveListener em E2 hl = em ∧
    (∃ em2 tr, EmitEvent (RemoveListener em E2 hl) E1 a = some (em2, tr) ∧
      TraceEntry.lis hl a ∈ tr) ∧
    (∀ (target : Listener) (z : EventType), z ≠ E2 →
      lookupL (RemoveListener em E2 target).listeners z = lookupL em.listeners z) ∧
    (∀ z, z ≠ E2 →
      lookupL (RemoveAllListenersForEvent em E2).listeners z = lookupL em.listeners z) := by
  have hrem : RemoveListener em E2 hl = em := by
    unfold RemoveListener
    rw [scanListenerIdx_none hl.id _ 0 habs]
  refine ⟨hrem, ?_, ?_, ?_⟩
  · rw [hrem]
    obtain ⟨em2, heq, -, -, -, -⟩ := EmitEvent_spec em E1 a
    refine ⟨em2, _, heq, ?_⟩
    exact List.mem_append_left _ (List.mem_map_of_mem _ hreg)
  · intro target z hz
    unfold RemoveListener
    cases hscan : scanListenerIdx target.id (lookupL em.listeners E2) 0 with
    | none => rfl
    | some i =>
      simp only [hscan]
      unfold removeListenerAtIndex
      exact lookupL_setL_ne _ _ _ z hz
  · intro z hz
    unfold RemoveAllListenersForEvent
    exact lookupL_setL_ne _ _ _ z hz

theorem claim_C10_witness :
    (⟨0, 0, false⟩ : Listener) ∈ lookupL emC.listeners "E1" ∧
    (∀ l ∈ lookupL emC.listeners "E2", l.id ≠ 0) ∧
    (RemoveListener emC "E2" ⟨0, 0, false⟩ = emC ∧
      (∃ em2 tr, EmitEvent (RemoveListener emC "E2" ⟨0, 0, false⟩) "E1" 3 = some (em2, tr) ∧
        TraceEntry.lis ⟨0, 0, false⟩ 3 ∈ tr) ∧
      (∀ (target : Listener) (z : EventType), z ≠ "E2" →
        lookupL (RemoveListener emC "E2" target).listeners z = lookupL emC.listeners z) ∧
      (∀ z, z ≠ "E2" →
        lookupL (RemoveAllListenersForEvent emC "E2").listeners z = lookupL emC.listeners z)) :=
  ⟨by decide, by decide, claim_C10 emC "E1" "E2" 3 ⟨0, 0, false⟩ (by decide) (by decide)⟩

end EventEmitter
